import Mathlib

/-!
# Budget ledger: shallow embedding

A shallow embedding of the in-memory budget store of this repository
(`src/context/BudgetContext.tsx`, the later normalized provider), the
color-assignment policy (`getCategoryColor` / `CATEGORY_COLORS` in the
theme constants), the home screen's date grouping (`transactionGroups`),
and the add-category form's validation (`handleAdd` in
`AddCategoryModal.tsx`).

Modelling conventions:
* JavaScript numbers that the store keeps (amounts, budget) are modelled
  as `Int`; the non-finite inputs rejected by `Number.isFinite` are
  modelled by the `JSNum` wrapper below.
* `undefined` optional fields become `Option`; the JS truthiness test
  `if (!finalColor)` (false for `undefined` and for `""`) is `strFalsy`.
* React `useState` state becomes an explicit `BudgetState` record and
  every mutation callback becomes a function `BudgetState → ... →
  BudgetState`; the nondeterministic `Crypto.randomUUID()` and
  `Date.now()` become explicit parameters.
* `Array.prototype.sort`, stable per the ECMAScript standard, is
  `List.mergeSort`; a JS `Map` used with `get`/`set`/`has`/`entries`
  (insertion-ordered keys) is an association list.
-/

/-- A JavaScript number as validated by `Number.isFinite`: either a
finite value (modelled as an integer) or one of the non-finite values. -/
inductive JSNum where
  | nan : JSNum
  | posInf : JSNum
  | negInf : JSNum
  | val : Int → JSNum
deriving Repr, DecidableEq

/-- `Number.isFinite` on a `JSNum`. -/
def JSNum.isFinite : JSNum → Bool
  | .val _ => true
  | _ => false

/-- The finite value carried by a `JSNum` (meaningful only when
`isFinite`; the store only ever keeps finite amounts). -/
def JSNum.toInt : JSNum → Int
  | .val x => x
  | _ => 0

/-- JS truthiness test `!x` on an optional string: `undefined` and the
empty string are falsy (source: `if (!finalColor)` in `addCategory`). -/
def strFalsy : Option String → Bool
  | none => true
  | some s => s == ""

/-- JS `String.prototype.trim()`: strips leading and trailing
whitespace.  Modelled over the character list so that it computes. -/
def jsTrim (s : String) : String :=
  ⟨((s.data.dropWhile Char.isWhitespace).reverse.dropWhile
      Char.isWhitespace).reverse⟩

/-- JS `String.prototype.toLowerCase()` (ASCII-faithful model). -/
def jsToLower (s : String) : String :=
  ⟨s.data.map Char.toLower⟩

/-- `Category` record (`src/context/BudgetContext.tsx`). -/
structure Category where
  id : String
  name : String
  icon : String
  color : String
  createdAt : Nat
deriving Repr, DecidableEq

/-- `Transaction` record (`src/context/BudgetContext.tsx`).  Amounts are
kept finite by the ledger's validation, hence `Int`. -/
structure Transaction where
  id : String
  title : String
  amount : Int
  date : String
  categoryId : String
  note : Option String
  createdAt : Nat
deriving Repr, DecidableEq

/-- `CategorySpending` record returned by `categoryBreakdown`. -/
structure CategorySpending where
  id : String
  name : String
  icon : String
  color : String
  amount : Int
deriving Repr, DecidableEq

/-- The provider's state: `budget`, `categories`, `nextColorIndex`,
`transactions` (the four `useState` hooks of `BudgetProvider`). -/
structure BudgetState where
  budget : Int
  categories : List Category
  nextColorIndex : Nat
  transactions : List Transaction
deriving Repr, DecidableEq

/-! ## Color assignment policy (`constants/theme`) -/

/-- `CATEGORY_COLORS`: the 30 curated category colors, spectrum order. -/
def CATEGORY_COLORS : List String :=
  [ "#FF3B30", "#E74C3C", "#C0392B", "#D35400", "#E67E22", "#F39C12"
  , "#F1C40F", "#D4AC0D", "#AFB42B", "#8D6E63", "#A1887F", "#CD6155"
  , "#2ECC71", "#27AE60", "#16A085", "#1ABC9C", "#009688", "#006266"
  , "#2980B9", "#3498DB", "#0984E3", "#1E3799", "#2C3E50", "#607D8B"
  , "#6C5CE7", "#8E44AD", "#9B59B6", "#BE2EDD", "#E84393", "#C44569" ]

/-- `getCategoryColor`: prime-stride color pick,
`CATEGORY_COLORS[(index * 7) % CATEGORY_COLORS.length]`. -/
def getCategoryColor (index : Nat) : String :=
  CATEGORY_COLORS.getD ((index * 7) % CATEGORY_COLORS.length) ""

/-! ## Category operations -/

/-- Argument of `addCategory`: `Omit<Category,'id'|'createdAt'|'color'> &
\x7b color?: string \x7d`. -/
structure CategoryInput where
  name : String
  icon : String
  color : Option String
deriving Repr, DecidableEq

/-- `addCategory`: auto-assigns `getCategoryColor nextColorIndex` and
bumps the counter when the supplied color is falsy, then appends the new
category.  `freshId` and `now` stand for `generateUUID()`/`Date.now()`. -/
def addCategory (s : BudgetState) (category : CategoryInput)
    (freshId : String) (now : Nat) : BudgetState :=
  let autoAssign := strFalsy category.color
  let finalColor :=
    if autoAssign then getCategoryColor s.nextColorIndex
    else category.color.getD ""
  { s with
    categories := s.categories ++
      [{ id := freshId, name := category.name, icon := category.icon
       , color := finalColor, createdAt := now }]
    nextColorIndex :=
      if autoAssign then s.nextColorIndex + 1 else s.nextColorIndex }

/-- Argument of `updateCategory`:
`Partial<Omit<Category,'id'|'createdAt'>>`. -/
structure CategoryUpdates where
  name : Option String
  icon : Option String
  color : Option String
deriving Repr, DecidableEq

/-- The JS spread `{ ...cat, ...updates }` for a category patch. -/
def applyCategoryUpdates (cat : Category) (u : CategoryUpdates) : Category :=
  { cat with
    name := u.name.getD cat.name
    icon := u.icon.getD cat.icon
    color := u.color.getD cat.color }

/-- `updateCategory`: patches the matching category in place; a missing
id leaves the list unchanged (no error channel exists in the source). -/
def updateCategory (s : BudgetState) (id : String) (u : CategoryUpdates) :
    BudgetState :=
  { s with
    categories := s.categories.map fun cat =>
      if cat.id = id then applyCategoryUpdates cat u else cat }

/-- `deleteCategory`: removes the category and every transaction whose
`categoryId` matches, in one call. -/
def deleteCategory (s : BudgetState) (id : String) : BudgetState :=
  { s with
    categories := s.categories.filter fun c => c.id ≠ id
    transactions := s.transactions.filter fun t => t.categoryId ≠ id }

/-- `getCategoryById`: non-throwing lookup. -/
def getCategoryById (s : BudgetState) (id : String) : Option Category :=
  s.categories.find? fun c => c.id = id

/-! ## Transaction operations -/

/-- Argument of `addTransaction`: `Omit<Transaction,'id'|'createdAt'>`.
The amount arrives as a raw JS number, checked by `Number.isFinite`. -/
structure TransactionInput where
  title : String
  amount : JSNum
  date : String
  categoryId : String
  note : Option String
deriving Repr, DecidableEq

/-- `addTransaction`: rejects a non-finite amount (early `return`, no
state change), otherwise appends the new transaction. -/
def addTransaction (s : BudgetState) (transaction : TransactionInput)
    (freshId : String) (now : Nat) : BudgetState :=
  if ¬ transaction.amount.isFinite then s
  else
    { s with
      transactions := s.transactions ++
        [{ id := freshId, title := transaction.title
         , amount := transaction.amount.toInt, date := transaction.date
         , categoryId := transaction.categoryId
         , note := transaction.note, createdAt := now }] }

/-- Argument of `updateTransaction`:
`Partial<Omit<Transaction,'id'|'createdAt'>>`. -/
structure TransactionUpdates where
  title : Option String
  amount : Option JSNum
  date : Option String
  categoryId : Option String
  note : Option String
deriving Repr, DecidableEq

/-- The JS spread `{ ...t, ...updates }` for a transaction patch. -/
def applyTransactionUpdates (t : Transaction) (u : TransactionUpdates) :
    Transaction :=
  { t with
    title := u.title.getD t.title
    amount := (u.amount.map JSNum.toInt).getD t.amount
    date := u.date.getD t.date
    categoryId := u.categoryId.getD t.categoryId
    note := (u.note.map some).getD t.note }

/-- `updateTransaction`: rejects a provided non-finite amount (early
`return`), otherwise patches the matching transaction in place; a
missing id leaves the list unchanged. -/
def updateTransaction (s : BudgetState) (id : String)
    (u : TransactionUpdates) : BudgetState :=
  if u.amount.any (fun a => ¬ a.isFinite) then s
  else
    { s with
      transactions := s.transactions.map fun t =>
        if t.id = id then applyTransactionUpdates t u else t }

/-- `deleteTransaction`: removes the matching transaction; a missing id
leaves the list unchanged. -/
def deleteTransaction (s : BudgetState) (id : String) : BudgetState :=
  { s with transactions := s.transactions.filter fun t => t.id ≠ id }

/-- `setBudget`. -/
def setBudget (s : BudgetState) (b : Int) : BudgetState :=
  { s with budget := b }

/-! ## Aggregation engine -/

/-- `totalSpent`: `transactions.filter(t => t.amount < 0).reduce((sum, t)
=> sum + Math.abs(t.amount), 0)`. -/
def totalSpent (transactions : List Transaction) : Int :=
  (transactions.filter fun t => t.amount < 0).foldl
    (fun sum t => sum + |t.amount|) 0

/-- JS `Map.get(k)` over an insertion-ordered association list. -/
def jsGet (m : List (String × β)) (k : String) : Option β :=
  (m.find? fun p => p.1 = k).map Prod.snd

/-- JS `Map.has(k)`. -/
def jsHas (m : List (String × β)) (k : String) : Bool :=
  m.any fun p => p.1 = k

/-- JS `Map.set(k, v)`: replaces in place when the key exists, appends
otherwise (keys keep insertion order). -/
def jsSet (m : List (String × β)) (k : String) (v : β) :
    List (String × β) :=
  if jsHas m k then m.map fun p => if p.1 = k then (k, v) else p
  else m ++ [(k, v)]

/-- The `const spending` map of `categoryBreakdown`: accumulate
`abs(amount)` per `categoryId` over the negative-amount transactions. -/
def spendingMap (transactions : List Transaction) : List (String × Int) :=
  (transactions.filter fun t => t.amount < 0).foldl
    (fun m t =>
      jsSet m t.categoryId ((jsGet m t.categoryId).getD 0 + |t.amount|))
    []

/-- The filter/map chain of `categoryBreakdown` before its sort: keep
the categories present in the spending map, project to
`CategorySpending`. -/
def breakdownBase (transactions : List Transaction)
    (categories : List Category) : List CategorySpending :=
  (categories.filter fun cat =>
    jsHas (spendingMap transactions) cat.id).map fun cat =>
    { id := cat.id, name := cat.name, icon := cat.icon
    , color := cat.color
    , amount := (jsGet (spendingMap transactions) cat.id).getD 0 }

/-- `categoryBreakdown`: the base entries, stable-sorted by amount
descending (JS comparator `(a, b) => b.amount - a.amount`). -/
def categoryBreakdown (transactions : List Transaction)
    (categories : List Category) : List CategorySpending :=
  (breakdownBase transactions categories).mergeSort
    fun a b => b.amount ≤ a.amount

/-- `getTransactionsByDate`: exact-date filter, then stable sort by
`createdAt` descending (JS comparator `(a, b) => b.createdAt -
a.createdAt`). -/
def getTransactionsByDate (transactions : List Transaction)
    (date : String) : List Transaction :=
  (transactions.filter fun t => t.date = date).mergeSort
    fun a b => b.createdAt ≤ a.createdAt

/-! ## Home screen date grouping (`transactionGroups` in the home screen) -/

/-- A date group of the home screen.  The source's `displayDate` field is
a clock-dependent pretty-printing of `date` ("Today"/"Yesterday"/…) and
carries no additional information, so it is not modelled. -/
structure TransactionGroup where
  date : String
  transactions : List Transaction
  total : Int
deriving Repr, DecidableEq

/-- The `const sorted` list of `transactionGroups`: all transactions by
`createdAt` descending (JS comparator `(a, b) => b.createdAt -
a.createdAt`). -/
def sortedByCreatedAt (transactions : List Transaction) :
    List Transaction :=
  transactions.mergeSort fun a b => b.createdAt ≤ a.createdAt

/-- The `const groups` map of `transactionGroups`: the sorted
transactions bucketed by `date` in an insertion-ordered map. -/
def dateBuckets (transactions : List Transaction) :
    List (String × List Transaction) :=
  (sortedByCreatedAt transactions).foldl
    (fun m t => jsSet m t.date ((jsGet m t.date).getD [] ++ [t])) []

/-- `transactionGroups`: each date bucket becomes a group whose `total`
is the signed sum of its amounts, and the groups are sorted by `date`
descending (JS comparator `(a, b) => b.date.localeCompare(a.date)`). -/
def transactionGroups (transactions : List Transaction) :
    List TransactionGroup :=
  ((dateBuckets transactions).map fun p =>
    ({ date := p.1, transactions := p.2
     , total := p.2.foldl (fun sum t => sum + t.amount) 0 }
      : TransactionGroup)).mergeSort fun a b => b.date ≤ a.date

/-! ## Add-category form validation (`handleAdd` in `AddCategoryModal`) -/

/-- `handleAdd`: validates the typed name (required, ≤ 30 chars after
trimming, case-insensitively unique) and only then calls `addCategory`,
passing `undefined` as the color when the picked color still equals the
default captured at modal open.  Returns the next store state together
with the error message set by a failed validation (`None` on success).
The source's `isSubmitting` re-entrancy guard is UI-only and not
modelled. -/
def handleAdd (s : BudgetState)
    (name icon selectedColor initialDefaultColor : String)
    (freshId : String) (now : Nat) : BudgetState × Option String :=
  let trimmedName := jsTrim name
  if trimmedName = "" then (s, some "Name is required")
  else if trimmedName.length > 30 then
    (s, some "Name must be 30 characters or less")
  else if s.categories.any
      (fun c => jsToLower c.name = jsToLower trimmedName) then
    (s, some "Category name already exists")
  else
    (addCategory s
      { name := trimmedName, icon := icon
      , color :=
          if selectedColor = initialDefaultColor then none
          else some selectedColor }
      freshId now, none)

/-! ## Operation sequences -/

/-- One user-visible mutation of the store, with the nondeterministic
inputs (`generateUUID()`, `Date.now()`) made explicit. -/
inductive Op where
  | addCategory (category : CategoryInput) (freshId : String) (now : Nat)
  | updateCategory (id : String) (u : CategoryUpdates)
  | deleteCategory (id : String)
  | addTransaction (transaction : TransactionInput) (freshId : String)
      (now : Nat)
  | updateTransaction (id : String) (u : TransactionUpdates)
  | deleteTransaction (id : String)
  | setBudget (b : Int)
deriving Repr, DecidableEq

/-- Apply one operation to the store state. -/
def step (s : BudgetState) : Op → BudgetState
  | .addCategory category freshId now => addCategory s category freshId now
  | .updateCategory id u => updateCategory s id u
  | .deleteCategory id => deleteCategory s id
  | .addTransaction transaction freshId now =>
      addTransaction s transaction freshId now
  | .updateTransaction id u => updateTransaction s id u
  | .deleteTransaction id => deleteTransaction s id
  | .setBudget b => setBudget s b

/-- Apply a sequence of operations left to right. -/
def run (s : BudgetState) (ops : List Op) : BudgetState :=
  ops.foldl step s

/-- The per-category expense total described by the spec: the sum of
`abs(amount)` over the transactions of category `cid` with negative
amount. -/
def negSpend (transactions : List Transaction) (cid : String) : Int :=
  ((transactions.filter fun t => t.amount < 0 ∧ t.categoryId = cid).map
    fun t => |t.amount|).sum

/-- The breakdown entry produced for a category. -/
def spendingEntry (transactions : List Transaction) (cat : Category) :
    CategorySpending :=
  { id := cat.id, name := cat.name, icon := cat.icon, color := cat.color
  , amount := negSpend transactions cat.id }

/-! ## Concrete fixtures for instances and examples -/

/-- A minimal transaction fixture (id reuses the title). -/
def mkTx (title : String) (amount : Int) (date categoryId : String)
    (createdAt : Nat) : Transaction :=
  { id := title, title := title, amount := amount, date := date
  , categoryId := categoryId, note := none, createdAt := createdAt }

/-- A minimal category fixture. -/
def mkCat (id name : String) (createdAt : Nat) : Category :=
  { id := id, name := name, icon := "cart-outline", color := "#FF3B30"
  , createdAt := createdAt }

/-- The empty store. -/
def emptyState : BudgetState :=
  { budget := 0, categories := [], nextColorIndex := 0, transactions := [] }

/-- A store with one category and one transaction, used to exercise the
missing-id operations. -/
def oneEntryState : BudgetState :=
  { budget := 100, categories := [mkCat "A" "Groceries" 0]
  , nextColorIndex := 1, transactions := [mkTx "t1" (-20) "2024-01-01" "A" 0] }

/-- Two transactions of −20 in categories "A" and "B": a spending tie. -/
def tieTxs : List Transaction :=
  [mkTx "t1" (-20) "2024-01-01" "A" 0, mkTx "t2" (-20) "2024-01-01" "B" 1]

/-- Categories "A" and "B" in insertion order. -/
def tieCats : List Category := [mkCat "A" "a" 0, mkCat "B" "b" 1]

/-- A single concrete transaction. -/
def oneTx : Transaction := mkTx "t1" (-5) "2024-01-01" "A" 0

/-- The date group holding exactly `oneTx`. -/
def oneGroup : TransactionGroup :=
  { date := "2024-01-01", transactions := [oneTx], total := -5 }

/-! ## Association-list map lemmas -/

theorem jsSet_cons_ne (p : String × β) (rest : List (String × β))
    (k : String) (v : β) (h : p.1 ≠ k) :
    jsSet (p :: rest) k v = p :: jsSet rest k v := by
  simp only [jsSet, jsHas, List.any_cons, decide_eq_true_eq, h,
    decide_False, Bool.false_or]
  split <;> simp [h]

theorem find?_map_replace (rest : List (String × β)) (k k' : String)
    (v : β) (h : k' ≠ k) :
    (rest.map fun q => if q.1 = k then (k, v) else q).find?
      (fun q => q.1 = k') = rest.find? fun q => q.1 = k' := by
  induction rest with
  | nil => rfl
  | cons q rest ih =>
    by_cases hq : q.1 = k
    · have h1 : ¬ (k = k') := fun e => h e.symm
      have h2 : ¬ (q.1 = k') := fun e => h (e.symm.trans hq)
      simp [List.find?_cons, hq, h1, h2, ih]
    · simp only [List.map_cons, if_neg hq, List.find?_cons]
      split <;> simp [ih]

theorem jsGet_jsSet (m : List (String × β)) (k k' : String) (v : β) :
    jsGet (jsSet m k v) k' = if k' = k then some v else jsGet m k' := by
  induction m with
  | nil =>
    by_cases h : k' = k
    · subst h; simp [jsGet, jsSet, jsHas, List.find?]
    · have h1 : ¬ (k = k') := fun e => h e.symm
      simp [jsGet, jsSet, jsHas, List.find?, h, h1]
  | cons p rest ih =>
    by_cases hp : p.1 = k
    · have hhas : jsHas (p :: rest) k = true := by simp [jsHas, hp]
      by_cases h : k' = k
      · subst h
        simp [jsSet, hhas, jsGet, List.find?_cons, hp]
      · have h1 : ¬ (k = k') := fun e => h e.symm
        have h2 : ¬ (p.1 = k') := fun e => h (e.symm.trans hp)
        simp [jsSet, hhas, jsGet, List.find?_cons, hp, h1, h2, h,
          find?_map_replace rest k k' v h]
    · rw [jsSet_cons_ne p rest k v hp]
      by_cases hpk : p.1 = k'
      · have h : ¬ k' = k := fun e => hp (hpk.trans e)
        simp [jsGet, List.find?_cons, hpk, h]
      · have hd : (decide (p.1 = k')) = false := by simpa using hpk
        simp only [jsGet, List.find?_cons, hd]
        simpa [jsGet] using ih

theorem jsHas_eq_isSome (m : List (String × β)) (k : String) :
    jsHas m k = (jsGet m k).isSome := by
  simp only [jsHas, jsGet, Option.isSome_map']
  rw [Bool.eq_iff_iff]
  simp [List.any_eq_true, List.find?_isSome]

theorem jsHas_jsSet (m : List (String × β)) (k k' : String) (v : β) :
    jsHas (jsSet m k v) k' = (decide (k' = k) || jsHas m k') := by
  rw [jsHas_eq_isSome, jsHas_eq_isSome, jsGet_jsSet]
  by_cases h : k' = k <;> simp [h]

theorem jsGet_of_mem_nodup (m : List (String × β)) (p : String × β)
    (h : p ∈ m) (hn : (m.map Prod.fst).Nodup) : jsGet m p.1 = some p.2 := by
  induction m with
  | nil => cases h
  | cons q rest ih =>
    rw [List.map_cons, List.nodup_cons] at hn
    rcases List.mem_cons.mp h with rfl | hm
    · simp [jsGet, List.find?_cons]
    · have hq : q.1 ≠ p.1 := by
        intro e
        exact hn.1 (e ▸ List.mem_map_of_mem Prod.fst hm)
      have hd : (decide (q.1 = p.1)) = false := by simpa using hq
      simp only [jsGet, List.find?_cons, hd]
      exact ih hm hn.2

theorem jsSet_keys (m : List (String × β)) (k : String) (v : β) :
    (jsSet m k v).map Prod.fst =
      if jsHas m k then m.map Prod.fst else m.map Prod.fst ++ [k] := by
  simp only [jsSet]
  split
  · rw [List.map_map]
    refine List.map_congr_left fun p _ => ?_
    by_cases hp : p.1 = k <;> simp [hp]
  · simp

theorem jsSet_keys_nodup (m : List (String × β)) (k : String) (v : β)
    (h : (m.map Prod.fst).Nodup) : ((jsSet m k v).map Prod.fst).Nodup := by
  rw [jsSet_keys]
  split
  · exact h
  · rename_i hh
    have hk : k ∉ m.map Prod.fst := by
      intro hmem
      rcases List.mem_map.mp hmem with ⟨p, hp, he⟩
      have : jsHas m k = true := by
        simp only [jsHas, List.any_eq_true, decide_eq_true_eq]
        exact ⟨p, hp, he⟩
      exact hh this
    simp [List.nodup_append, h, hk]

theorem jsGet_accFold (key : α → String) (upd : β → α → β) (d : β)
    (l : List α) (m : List (String × β)) (k : String) :
    (jsGet (l.foldl
        (fun m t => jsSet m (key t) (upd ((jsGet m (key t)).getD d) t)) m)
      k).getD d
      = (l.filter fun t => key t = k).foldl upd ((jsGet m k).getD d) := by
  induction l generalizing m with
  | nil => simp
  | cons t l ih =>
    simp only [List.foldl_cons]
    rw [ih, jsGet_jsSet]
    by_cases hk : key t = k
    · simp [List.filter_cons, hk]
    · have hk' : ¬ (k = key t) := fun e => hk e.symm
      simp [List.filter_cons, hk, hk']

theorem jsHas_accFold (key : α → String) (upd : β → α → β) (d : β)
    (l : List α) (m : List (String × β)) (k : String) :
    jsHas (l.foldl
        (fun m t => jsSet m (key t) (upd ((jsGet m (key t)).getD d) t)) m) k
      = (jsHas m k || l.any fun t => key t = k) := by
  induction l generalizing m with
  | nil => simp
  | cons t l ih =>
    simp only [List.foldl_cons, List.any_cons]
    rw [ih, jsHas_jsSet]
    by_cases hk : key t = k
    · simp [hk]
    · have hk' : ¬ (k = key t) := fun e => hk e.symm
      simp [hk, hk']

theorem keys_nodup_accFold (key : α → String) (upd : β → α → β) (d : β)
    (l : List α) (m : List (String × β))
    (h : (m.map Prod.fst).Nodup) :
    ((l.foldl
        (fun m t => jsSet m (key t) (upd ((jsGet m (key t)).getD d) t))
        m).map Prod.fst).Nodup := by
  induction l generalizing m with
  | nil => exact h
  | cons t l ih => exact ih _ (jsSet_keys_nodup _ _ _ h)

theorem foldl_add_eq (f : α → Int) (l : List α) (init : Int) :
    l.foldl (fun sum a => sum + f a) init = init + (l.map f).sum := by
  induction l generalizing init with
  | nil => simp
  | cons a l ih => simp [ih, add_assoc]

theorem foldl_append_eq (l : List α) (init : List α) :
    l.foldl (fun acc a => acc ++ [a]) init = init ++ l := by
  induction l generalizing init with
  | nil => simp
  | cons a l ih => simp [ih]

theorem spendMap_get (l : List Transaction) (k : String) :
    (jsGet (l.foldl (fun m t =>
        jsSet m t.categoryId ((jsGet m t.categoryId).getD 0 + |t.amount|))
        []) k).getD 0
      = ((l.filter fun t => t.categoryId = k).map fun t => |t.amount|).sum := by
  refine (jsGet_accFold (fun t => t.categoryId)
    (fun sum t => sum + |t.amount|) 0 l [] k).trans ?_
  rw [foldl_add_eq]
  simp [jsGet]

theorem spendMap_has (l : List Transaction) (k : String) :
    jsHas (l.foldl (fun m t =>
        jsSet m t.categoryId ((jsGet m t.categoryId).getD 0 + |t.amount|))
        []) k
      = l.any fun t => t.categoryId = k := by
  have h := jsHas_accFold (fun t => t.categoryId)
    (fun sum t => sum + |t.amount|) 0 l [] k
  simpa [jsHas] using h

theorem bucketMap_get (l : List Transaction) (k : String) :
    (jsGet (l.foldl (fun m t =>
        jsSet m t.date ((jsGet m t.date).getD [] ++ [t])) []) k).getD []
      = l.filter fun t => t.date = k := by
  refine (jsGet_accFold (fun t => t.date)
    (fun acc t => acc ++ [t]) [] l [] k).trans ?_
  rw [foldl_append_eq]
  simp [jsGet]

theorem bucketMap_has (l : List Transaction) (k : String) :
    jsHas (l.foldl (fun m t =>
        jsSet m t.date ((jsGet m t.date).getD [] ++ [t])) []) k
      = l.any fun t => t.date = k := by
  have h := jsHas_accFold (fun t => t.date)
    (fun acc t => acc ++ [t]) [] l [] k
  simpa [jsHas] using h

theorem bucketMap_keys_nodup (l : List Transaction) :
    ((l.foldl (fun m t =>
        jsSet m t.date ((jsGet m t.date).getD [] ++ [t])) []).map
      Prod.fst).Nodup := by
  exact keys_nodup_accFold (fun t => t.date) (fun acc t => acc ++ [t]) []
    l [] (by simp)

theorem getCategoryColor_ne_empty (i : Nat) : getCategoryColor i ≠ "" := by
  unfold getCategoryColor
  have h : (i * 7) % CATEGORY_COLORS.length < CATEGORY_COLORS.length :=
    Nat.mod_lt _ (by decide)
  rw [List.getD_eq_getElem _ _ h]
  intro he
  exact (by decide : ∀ x ∈ CATEGORY_COLORS, x ≠ "") _ (List.getElem_mem h) he

/-! ## Claim theorems -/

/-- **C1.** Deleting a category cascades to the transaction ledger: one
call to `deleteCategory` (a single logical operation producing a single
new state, so no observable state has the category gone with referencing
transactions remaining) leaves zero categories with that id and zero
transactions whose `categoryId` equals that id, while every other
category and transaction survives exactly when it was present before. -/
theorem deleteCategory_cascade (s : BudgetState) (id : String)
    (c : Category) (t : Transaction) :
    (deleteCategory s id).transactions.countP
        (fun t => t.categoryId = id) = 0
    ∧ (deleteCategory s id).categories.countP (fun c => c.id = id) = 0
    ∧ (c ∈ (deleteCategory s id).categories ↔
        c ∈ s.categories ∧ c.id ≠ id)
    ∧ (t ∈ (deleteCategory s id).transactions ↔
        t ∈ s.transactions ∧ t.categoryId ≠ id) := by
  refine ⟨?_, ?_, ?_, ?_⟩ <;>
    simp [deleteCategory, List.countP_eq_zero, List.mem_filter]

/-- **C2.** `totalSpent` equals the sum of `abs(amount)` over exactly the
transactions with negative amount; appending one transaction adds
`abs(amount)` when the amount is negative and nothing otherwise (income
is excluded); and on amounts `[-50, -30, +100]` the result is `80`. -/
theorem totalSpent_spec (transactions : List Transaction)
    (t : Transaction) :
    totalSpent transactions
      = ((transactions.filter fun u => u.amount < 0).map
          fun u => |u.amount|).sum
    ∧ totalSpent (transactions ++ [t])
      = totalSpent transactions +
          (if t.amount < 0 then |t.amount| else 0)
    ∧ totalSpent
        [mkTx "a" (-50) "d" "c" 0, mkTx "b" (-30) "d" "c" 1,
         mkTx "c" 100 "d" "c" 2] = 80 := by
  have hsum : ∀ l : List Transaction, totalSpent l
      = ((l.filter fun u => u.amount < 0).map fun u => |u.amount|).sum := by
    intro l
    unfold totalSpent
    rw [foldl_add_eq]
    simp
  refine ⟨hsum _, ?_, by decide⟩
  rw [hsum, hsum, List.filter_append]
  by_cases h : t.amount < 0 <;> simp [List.filter_cons, h]

/-- **C5.** `getCategoryColor` computes
`CATEGORY_COLORS[(index * 7) % 30]` (pure and deterministic by
construction); indices wrap with period 30; and on indices `0..29` it
visits all 30 pairwise-distinct palette entries exactly once. -/
theorem getCategoryColor_spec (i : Nat) :
    getCategoryColor i = CATEGORY_COLORS.getD ((i * 7) % 30) ""
    ∧ getCategoryColor (i + 30) = getCategoryColor i
    ∧ ((List.range 30).map getCategoryColor).Perm CATEGORY_COLORS
    ∧ CATEGORY_COLORS.Nodup := by
  refine ⟨rfl, ?_, by decide, by decide⟩
  unfold getCategoryColor
  have hmod : (i + 30) * 7 % CATEGORY_COLORS.length
      = i * 7 % CATEGORY_COLORS.length := by
    have hlen : CATEGORY_COLORS.length = 30 := rfl
    rw [hlen]
    omega
  rw [hmod]

/-- **C10.** An explicitly supplied empty-string color is treated exactly
like an omitted one: `addCategory` with `color = some ""` produces the
same state as with `color = none`, the stored category carries
`getCategoryColor s.nextColorIndex` (which is never the empty string),
and `nextColorIndex` is incremented. -/
theorem addCategory_empty_color (s : BudgetState)
    (name icon freshId : String) (now : Nat) :
    addCategory s { name := name, icon := icon, color := some "" }
        freshId now
      = addCategory s { name := name, icon := icon, color := none }
          freshId now
    ∧ (addCategory s { name := name, icon := icon, color := some "" }
        freshId now).categories
      = s.categories ++
        [{ id := freshId, name := name, icon := icon
         , color := getCategoryColor s.nextColorIndex, createdAt := now }]
    ∧ getCategoryColor s.nextColorIndex ≠ ""
    ∧ (addCategory s { name := name, icon := icon, color := some "" }
        freshId now).nextColorIndex = s.nextColorIndex + 1 :=
  ⟨rfl, rfl, getCategoryColor_ne_empty s.nextColorIndex, rfl⟩

/-- **C7 (counterexample).** The ledger does not validate titles:
`addTransaction` on the empty store with a trimmed-empty title and the
finite amount 5 succeeds — the ledger grows to one entry instead of
failing with `EmptyTitle` and leaving the size unchanged. -/
theorem addTransaction_empty_title_accepted :
    (jsTrim "" = "")
    ∧ (addTransaction emptyState
        { title := "", amount := .val 5, date := "2024-01-01"
        , categoryId := "A", note := none } "t1" 0).transactions.length = 1
    ∧ addTransaction emptyState
        { title := "", amount := .val 5, date := "2024-01-01"
        , categoryId := "A", note := none } "t1" 0 ≠ emptyState :=
  ⟨by decide, rfl, by decide⟩

/-- **C7 (amended).** `addTransaction` validates only the amount: a
non-finite amount (NaN or ±Infinity) is rejected with the whole state —
in particular the ledger size — unchanged, while any finite amount
appends the new transaction regardless of the title; the title is not
validated by the ledger (the form caps the input at 100 characters and
disables saving on an empty trimmed title, but the ledger accepts any
title). -/
theorem addTransaction_validates_only_amount (s : BudgetState)
    (transaction : TransactionInput) (freshId : String) (now : Nat) :
    addTransaction s transaction freshId now
      = (if transaction.amount.isFinite then
          { s with transactions := s.transactions ++
            [{ id := freshId, title := transaction.title
             , amount := transaction.amount.toInt
             , date := transaction.date
             , categoryId := transaction.categoryId
             , note := transaction.note, createdAt := now }] }
        else s)
    ∧ (addTransaction s transaction freshId now).transactions.length
      = s.transactions.length +
          (if transaction.amount.isFinite then 1 else 0) := by
  unfold addTransaction
  by_cases h : transaction.amount.isFinite <;> simp [h]

/-- **C8 (counterexample).** Operations addressing a nonexistent id do
not fail with a `NotFoundError`: the source callbacks return `void` with
no error channel, and on the id `"missing"` — identifying no entity of
`oneEntryState` — each update/delete returns normally with the state
unchanged, indistinguishable from a successful no-op. -/
theorem missing_id_no_error :
    updateCategory oneEntryState "missing"
        { name := some "x", icon := none, color := none } = oneEntryState
    ∧ deleteCategory oneEntryState "missing" = oneEntryState
    ∧ updateTransaction oneEntryState "missing"
        { title := some "x", amount := none, date := none
        , categoryId := none, note := none } = oneEntryState
    ∧ deleteTransaction oneEntryState "missing" = oneEntryState :=
  ⟨by decide, by decide, by decide, by decide⟩

/-- **C8 (amended).** For an id that identifies no existing entity (and,
for `deleteCategory`, that no transaction references either), the update
and delete operations of both the category registry and the transaction
ledger are silent no-ops: they signal no error — no `NotFoundError`
exists in the source — and return the state unchanged, leaving the store
usable. -/
theorem missing_id_noop (s : BudgetState) (cid tid : String)
    (u : CategoryUpdates) (v : TransactionUpdates)
    (hc : ∀ c ∈ s.categories, c.id ≠ cid)
    (hr : ∀ t ∈ s.transactions, t.categoryId ≠ cid)
    (ht : ∀ t ∈ s.transactions, t.id ≠ tid) :
    updateCategory s cid u = s
    ∧ deleteCategory s cid = s
    ∧ updateTransaction s tid v = s
    ∧ deleteTransaction s tid = s := by
  refine ⟨?_, ?_, ?_, ?_⟩
  · unfold updateCategory
    have h1 : (s.categories.map fun cat =>
        if cat.id = cid then applyCategoryUpdates cat u else cat)
        = s.categories := by
      calc (s.categories.map fun cat =>
              if cat.id = cid then applyCategoryUpdates cat u else cat)
          = s.categories.map id :=
            List.map_congr_left fun c hm => by simp [hc c hm]
        _ = s.categories := List.map_id _
    rw [h1]
  · unfold deleteCategory
    have h1 : (s.categories.filter fun c => c.id ≠ cid) = s.categories :=
      List.filter_eq_self.mpr fun c hm => by simpa using hc c hm
    have h2 : (s.transactions.filter fun t => t.categoryId ≠ cid)
        = s.transactions :=
      List.filter_eq_self.mpr fun t hm => by simpa using hr t hm
    rw [h1, h2]
  · unfold updateTransaction
    split
    · rfl
    · have h1 : (s.transactions.map fun t =>
          if t.id = tid then applyTransactionUpdates t v else t)
          = s.transactions := by
        calc (s.transactions.map fun t =>
                if t.id = tid then applyTransactionUpdates t v else t)
            = s.transactions.map id :=
              List.map_congr_left fun t hm => by simp [ht t hm]
          _ = s.transactions := List.map_id _
      rw [h1]
  · unfold deleteTransaction
    have h1 : (s.transactions.filter fun t => t.id ≠ tid)
        = s.transactions :=
      List.filter_eq_self.mpr fun t hm => by simpa using ht t hm
    rw [h1]

/-- Instance of `missing_id_noop` at the store `oneEntryState` and the
id `"missing"`. -/
theorem missing_id_noop_witness :
    updateCategory oneEntryState "missing"
        { name := some "y", icon := none, color := none } = oneEntryState
    ∧ deleteCategory oneEntryState "missing" = oneEntryState
    ∧ updateTransaction oneEntryState "missing"
        { title := some "y", amount := none, date := none
        , categoryId := none, note := none } = oneEntryState
    ∧ deleteTransaction oneEntryState "missing" = oneEntryState :=
  missing_id_noop oneEntryState "missing" "missing"
    { name := some "y", icon := none, color := none }
    { title := some "y", amount := none, date := none
    , categoryId := none, note := none }
    (by decide) (by decide) (by decide)

/-- **C6.** The add-category pipeline (the `handleAdd` handler, the only
caller of the registry's `addCategory`) validates the name: an empty
trimmed name fails with the `EmptyName` message ("Name is required"), a
trimmed name over 30 characters fails with the `NameTooLong` message
("Name must be 30 characters or less"), and a case-insensitive collision
with an existing category name fails with the `DuplicateName` message
("Category name already exists"); in every failure case the returned
state is the input state, so the category set is unchanged. -/
theorem handleAdd_validates_name (s : BudgetState)
    (name icon selectedColor initialDefaultColor freshId : String)
    (now : Nat) :
    (jsTrim name = "" →
      handleAdd s name icon selectedColor initialDefaultColor freshId now
        = (s, some "Name is required"))
    ∧ (jsTrim name ≠ "" → 30 < (jsTrim name).length →
      handleAdd s name icon selectedColor initialDefaultColor freshId now
        = (s, some "Name must be 30 characters or less"))
    ∧ (jsTrim name ≠ "" → (jsTrim name).length ≤ 30 →
      (∃ c ∈ s.categories, jsToLower c.name = jsToLower (jsTrim name)) →
      handleAdd s name icon selectedColor initialDefaultColor freshId now
        = (s, some "Category name already exists")) := by
  refine ⟨?_, ?_, ?_⟩
  · intro h
    simp [handleAdd, h]
  · intro h1 h2
    simp [handleAdd, h1, h2]
  · intro h1 h2 h3
    have h2' : ¬ ((jsTrim name).length > 30) := by omega
    simp only [handleAdd, if_neg h1, if_neg h2']
    rw [if_pos]
    simp only [List.any_eq_true, decide_eq_true_eq]
    exact h3

/-- Instances of `handleAdd_validates_name` on `oneEntryState` (whose
category is named "Groceries"): a whitespace-only name, a 31-character
name, and a name that case-insensitively collides with "Groceries". -/
theorem handleAdd_validates_name_witness :
    (handleAdd oneEntryState "   " "i" "c" "c" "f" 0
      = (oneEntryState, some "Name is required"))
    ∧ (handleAdd oneEntryState "abcdefghijklmnopqrstuvwxyzabcde" "i" "c"
        "c" "f" 0
      = (oneEntryState, some "Name must be 30 characters or less"))
    ∧ (handleAdd oneEntryState "  groceries " "i" "c" "c" "f" 0
      = (oneEntryState, some "Category name already exists")) :=
  ⟨(handleAdd_validates_name oneEntryState "   " "i" "c" "c" "f" 0).1
      (by decide),
   (handleAdd_validates_name oneEntryState
      "abcdefghijklmnopqrstuvwxyzabcde" "i" "c" "c" "f" 0).2.1
      (by decide) (by decide),
   (handleAdd_validates_name oneEntryState "  groceries " "i" "c" "c"
      "f" 0).2.2 (by decide) (by decide) (by decide)⟩

/-- **C9.** `nextColorIndex` is a monotonic counter: no single operation
decreases it, no operation sequence decreases it, an `addCategory` whose
input omits the color increments it by exactly one and stores
`getCategoryColor` of the pre-increment value on the new category, and
`deleteCategory` never changes it — deletions cannot cause a color index
to be reused. -/
theorem nextColorIndex_monotone (s : BudgetState) (op : Op)
    (ops : List Op) (category : CategoryInput) (freshId delId : String)
    (now : Nat) (h : category.color = none) :
    s.nextColorIndex ≤ (step s op).nextColorIndex
    ∧ s.nextColorIndex ≤ (run s ops).nextColorIndex
    ∧ (step s (.addCategory category freshId now)).nextColorIndex
        = s.nextColorIndex + 1
    ∧ (step s (.addCategory category freshId now)).categories
        = s.categories ++
          [{ id := freshId, name := category.name, icon := category.icon
           , color := getCategoryColor s.nextColorIndex
           , createdAt := now }]
    ∧ (step s (.deleteCategory delId)).nextColorIndex
        = s.nextColorIndex := by
  have hstep : ∀ (s' : BudgetState) (op' : Op),
      s'.nextColorIndex ≤ (step s' op').nextColorIndex := by
    intro s' op'
    cases op' with
    | addCategory c f n =>
      simp only [step, addCategory]
      split <;> simp
    | addTransaction tr f n =>
      simp only [step, addTransaction]
      split <;> simp
    | updateTransaction i u =>
      simp only [step, updateTransaction]
      split <;> simp
    | updateCategory i u => exact Nat.le_refl _
    | deleteCategory i => exact Nat.le_refl _
    | deleteTransaction i => exact Nat.le_refl _
    | setBudget b => exact Nat.le_refl _
  have hrun : ∀ (l : List Op) (s' : BudgetState),
      s'.nextColorIndex ≤ (run s' l).nextColorIndex := by
    intro l
    induction l with
    | nil => intro s'; exact Nat.le_refl _
    | cons o l ih =>
      intro s'
      exact Nat.le_trans (hstep s' o) (ih (step s' o))
  refine ⟨hstep s op, hrun ops s, ?_, ?_, rfl⟩
  · simp [step, addCategory, strFalsy, h]
  · simp [step, addCategory, strFalsy, h]

/-- Instance of `nextColorIndex_monotone` at the empty store, a
color-omitting category input, and a one-operation sequence. -/
theorem nextColorIndex_monotone_witness :
    emptyState.nextColorIndex
        ≤ (step emptyState (.setBudget 1)).nextColorIndex
    ∧ emptyState.nextColorIndex
        ≤ (run emptyState [.setBudget 1]).nextColorIndex
    ∧ (step emptyState
        (.addCategory { name := "n", icon := "i", color := none }
          "f" 0)).nextColorIndex = emptyState.nextColorIndex + 1
    ∧ (step emptyState
        (.addCategory { name := "n", icon := "i", color := none }
          "f" 0)).categories
      = emptyState.categories ++
          [{ id := "f", name := "n", icon := "i"
           , color := getCategoryColor emptyState.nextColorIndex
           , createdAt := 0 }]
    ∧ (step emptyState (.deleteCategory "d")).nextColorIndex
        = emptyState.nextColorIndex :=
  nextColorIndex_monotone emptyState (.setBudget 1) [.setBudget 1]
    { name := "n", icon := "i", color := none } "f" "d" 0 rfl

theorem spendingMap_value (txs : List Transaction) (k : String) :
    (jsGet (spendingMap txs) k).getD 0 = negSpend txs k := by
  unfold spendingMap
  rw [spendMap_get, negSpend, List.filter_filter]
  congr 1
  congr 1
  apply List.filter_congr
  intro t _
  simp [Bool.and_comm]

theorem spendingMap_has (txs : List Transaction) (k : String) :
    jsHas (spendingMap txs) k = true ↔
      ∃ t ∈ txs, t.amount < 0 ∧ t.categoryId = k := by
  unfold spendingMap
  rw [spendMap_has]
  simp [List.any_eq_true, List.mem_filter, and_assoc]

theorem breakdownBase_mem (txs : List Transaction) (cats : List Category)
    (x : CategorySpending) :
    x ∈ breakdownBase txs cats ↔
      ∃ c ∈ cats, (∃ t ∈ txs, t.amount < 0 ∧ t.categoryId = c.id)
        ∧ x = spendingEntry txs c := by
  unfold breakdownBase
  simp only [List.mem_map, List.mem_filter]
  constructor
  · rintro ⟨c, ⟨hcmem, hhas⟩, rfl⟩
    refine ⟨c, hcmem, (spendingMap_has txs c.id).mp hhas, ?_⟩
    simp [spendingEntry, spendingMap_value]
  · rintro ⟨c, hcmem, hex, rfl⟩
    refine ⟨c, ⟨hcmem, (spendingMap_has txs c.id).mpr hex⟩, ?_⟩
    simp [spendingEntry, spendingMap_value]

/-- **C3.** `categoryBreakdown` contains exactly one kind of entry: the
data of a category with at least one negative-amount transaction paired
with the sum of `abs(amount)` over that category's negative transactions
(zero-spend categories are absent rather than listed with 0); the list
is sorted by amount descending; and two tied qualifying categories keep
the registry's insertion order (stable sort). -/
theorem categoryBreakdown_spec (txs : List Transaction)
    (cats : List Category) (x : CategorySpending) (c d : Category)
    (hcd : [c, d].Sublist cats)
    (hc : ∃ t ∈ txs, t.amount < 0 ∧ t.categoryId = c.id)
    (hd : ∃ t ∈ txs, t.amount < 0 ∧ t.categoryId = d.id)
    (htie : negSpend txs c.id = negSpend txs d.id) :
    (x ∈ categoryBreakdown txs cats ↔
      ∃ c' ∈ cats, (∃ t ∈ txs, t.amount < 0 ∧ t.categoryId = c'.id)
        ∧ x = spendingEntry txs c')
    ∧ (categoryBreakdown txs cats).Pairwise
        (fun a b => b.amount ≤ a.amount)
    ∧ [spendingEntry txs c, spendingEntry txs d].Sublist
        (categoryBreakdown txs cats) := by
  have htrans : ∀ (a b e : CategorySpending),
      (decide (b.amount ≤ a.amount)) → (decide (e.amount ≤ b.amount)) →
      (decide (e.amount ≤ a.amount)) := by
    intro a b e hab hbe
    simp only [decide_eq_true_eq] at *
    omega
  have htotal : ∀ (a b : CategorySpending),
      ((decide (b.amount ≤ a.amount)) || (decide (a.amount ≤ b.amount)))
        = true := by
    intro a b
    simpa [Bool.or_eq_true, decide_eq_true_eq] using
      Int.le_total b.amount a.amount
  refine ⟨?_, ?_, ?_⟩
  · unfold categoryBreakdown
    rw [List.mem_mergeSort]
    exact breakdownBase_mem txs cats x
  · unfold categoryBreakdown
    exact (List.sorted_mergeSort htrans htotal
      (breakdownBase txs cats)).imp fun hab => by simpa using hab
  · unfold categoryBreakdown
    have hfc : jsHas (spendingMap txs) c.id = true :=
      (spendingMap_has txs c.id).mpr hc
    have hfd : jsHas (spendingMap txs) d.id = true :=
      (spendingMap_has txs d.id).mpr hd
    have hsub1 : ([c, d].filter
        (fun cat => jsHas (spendingMap txs) cat.id)).Sublist
        (cats.filter (fun cat => jsHas (spendingMap txs) cat.id)) :=
      hcd.filter _
    rw [show [c, d].filter (fun cat => jsHas (spendingMap txs) cat.id)
        = [c, d] by simp [List.filter_cons, hfc, hfd]] at hsub1
    have hfe : ∀ e : Category,
        ({ id := e.id, name := e.name, icon := e.icon, color := e.color
         , amount := (jsGet (spendingMap txs) e.id).getD 0 }
          : CategorySpending) = spendingEntry txs e := by
      intro e
      simp [spendingEntry, spendingMap_value]
    have hsub2 : ([spendingEntry txs c,
        spendingEntry txs d]).Sublist (breakdownBase txs cats) := by
      have hm := hsub1.map (fun cat =>
        ({ id := cat.id, name := cat.name, icon := cat.icon
         , color := cat.color
         , amount := (jsGet (spendingMap txs) cat.id).getD 0 }
          : CategorySpending))
      simpa [breakdownBase, hfe] using hm
    have hle : (decide ((spendingEntry txs d).amount ≤
        (spendingEntry txs c).amount)) = true := by
      simp [spendingEntry, htie]
    exact List.pair_sublist_mergeSort htrans htotal hle hsub2

/-- Instance of `categoryBreakdown_spec` on two tied categories "A" and
"B", each with one −20 transaction. -/
theorem categoryBreakdown_spec_witness :
    (spendingEntry tieTxs (mkCat "A" "a" 0) ∈
        categoryBreakdown tieTxs tieCats ↔
      ∃ c' ∈ tieCats,
        (∃ t ∈ tieTxs, t.amount < 0 ∧ t.categoryId = c'.id)
        ∧ spendingEntry tieTxs (mkCat "A" "a" 0)
            = spendingEntry tieTxs c')
    ∧ (categoryBreakdown tieTxs tieCats).Pairwise
        (fun a b => b.amount ≤ a.amount)
    ∧ ([spendingEntry tieTxs (mkCat "A" "a" 0),
        spendingEntry tieTxs (mkCat "B" "b" 1)]).Sublist
        (categoryBreakdown tieTxs tieCats) :=
  categoryBreakdown_spec tieTxs tieCats
    (spendingEntry tieTxs (mkCat "A" "a" 0))
    (mkCat "A" "a" 0) (mkCat "B" "b" 1)
    (by decide) (by decide) (by decide) (by decide)

theorem sortedByCreatedAt_perm (txs : List Transaction) :
    (sortedByCreatedAt txs).Perm txs :=
  List.mergeSort_perm txs _

theorem sortedByCreatedAt_pairwise (txs : List Transaction) :
    (sortedByCreatedAt txs).Pairwise
      (fun a b => b.createdAt ≤ a.createdAt) := by
  have htrans : ∀ (a b c : Transaction),
      (decide (b.createdAt ≤ a.createdAt)) →
      (decide (c.createdAt ≤ b.createdAt)) →
      (decide (c.createdAt ≤ a.createdAt)) := by
    intro a b c hab hbc
    simp only [decide_eq_true_eq] at *
    omega
  have htotal : ∀ (a b : Transaction),
      ((decide (b.createdAt ≤ a.createdAt)) ||
       (decide (a.createdAt ≤ b.createdAt))) = true := by
    intro a b
    simpa [Bool.or_eq_true, decide_eq_true_eq] using
      Nat.le_total b.createdAt a.createdAt
  exact (List.sorted_mergeSort htrans htotal txs).imp
    fun hab => by simpa using hab

theorem dateBuckets_get (txs : List Transaction) (k : String) :
    (jsGet (dateBuckets txs) k).getD []
      = (sortedByCreatedAt txs).filter fun t => t.date = k := by
  unfold dateBuckets
  exact bucketMap_get _ _

theorem dateBuckets_has (txs : List Transaction) (k : String) :
    jsHas (dateBuckets txs) k
      = (sortedByCreatedAt txs).any fun t => t.date = k := by
  unfold dateBuckets
  exact bucketMap_has _ _

theorem dateBuckets_keys_nodup (txs : List Transaction) :
    ((dateBuckets txs).map Prod.fst).Nodup := by
  unfold dateBuckets
  exact bucketMap_keys_nodup _

theorem dateBuckets_snd (txs : List Transaction)
    (p : String × List Transaction) (hp : p ∈ dateBuckets txs) :
    p.2 = (sortedByCreatedAt txs).filter fun t => t.date = p.1 := by
  have h1 := jsGet_of_mem_nodup (dateBuckets txs) p hp
    (dateBuckets_keys_nodup txs)
  have h2 := dateBuckets_get txs p.1
  rw [h1] at h2
  simpa using h2

theorem transactionGroups_mem (txs : List Transaction)
    (g : TransactionGroup) (hg : g ∈ transactionGroups txs) :
    ∃ p ∈ dateBuckets txs, g =
      { date := p.1, transactions := p.2
      , total := p.2.foldl (fun sum t => sum + t.amount) 0 } := by
  unfold transactionGroups at hg
  rw [List.mem_mergeSort] at hg
  rcases List.mem_map.mp hg with ⟨p, hp, rfl⟩
  exact ⟨p, hp, rfl⟩

/-- **C4.** `transactionGroups` partitions by the `date` field: every
group's transaction list is (a permutation of) the transactions bearing
exactly that date, ordered by `createdAt` descending within the group;
every group's `total` is the signed sum of its amounts (not abs); the
groups are ordered by `date` descending with pairwise-distinct dates,
independent of insertion order; and every transaction's date has a group
containing that transaction. -/
theorem transactionGroups_spec (txs : List Transaction)
    (g : TransactionGroup) (t : Transaction)
    (hg : g ∈ transactionGroups txs) (ht : t ∈ txs) :
    g.transactions.Perm (txs.filter fun u => u.date = g.date)
    ∧ g.transactions.Pairwise (fun a b => b.createdAt ≤ a.createdAt)
    ∧ g.total = (g.transactions.map Transaction.amount).sum
    ∧ (transactionGroups txs).Pairwise (fun a b => b.date ≤ a.date)
    ∧ (transactionGroups txs).Pairwise (fun a b => a.date ≠ b.date)
    ∧ ∃ h ∈ transactionGroups txs, h.date = t.date
        ∧ t ∈ h.transactions := by
  have htransG : ∀ (a b c : TransactionGroup),
      (decide (b.date ≤ a.date)) → (decide (c.date ≤ b.date)) →
      (decide (c.date ≤ a.date)) := by
    intro a b c hab hbc
    simp only [decide_eq_true_eq] at *
    exact le_trans hbc hab
  have htotalG : ∀ (a b : TransactionGroup),
      ((decide (b.date ≤ a.date)) || (decide (a.date ≤ b.date)))
        = true := by
    intro a b
    simpa [Bool.or_eq_true, decide_eq_true_eq] using le_total b.date a.date
  obtain ⟨p, hp, rfl⟩ := transactionGroups_mem txs g hg
  have hsnd := dateBuckets_snd txs p hp
  refine ⟨?_, ?_, ?_, ?_, ?_, ?_⟩
  · show p.2.Perm (txs.filter fun u => u.date = p.1)
    rw [hsnd]
    exact (sortedByCreatedAt_perm txs).filter _
  · show p.2.Pairwise (fun a b => b.createdAt ≤ a.createdAt)
    rw [hsnd]
    exact (sortedByCreatedAt_pairwise txs).sublist (List.filter_sublist _)
  · show p.2.foldl (fun sum t => sum + t.amount) 0
      = (p.2.map Transaction.amount).sum
    rw [foldl_add_eq]
    simp
  · unfold transactionGroups
    exact (List.sorted_mergeSort htransG htotalG _).imp
      fun hab => by simpa using hab
  · unfold transactionGroups
    have hkeys : ((dateBuckets txs).map Prod.fst).Pairwise (· ≠ ·) :=
      dateBuckets_keys_nodup txs
    have hpre : ((dateBuckets txs).map fun q =>
        ({ date := q.1, transactions := q.2
         , total := q.2.foldl (fun sum t => sum + t.amount) 0 }
          : TransactionGroup)).Pairwise (fun a b => a.date ≠ b.date) := by
      rw [List.pairwise_map]
      exact (List.pairwise_map.mp hkeys).imp fun hab => hab
    exact ((List.mergeSort_perm _ _).pairwise_iff
      fun hab => Ne.symm hab).mpr hpre
  · have htmem : t ∈ sortedByCreatedAt txs :=
      ((sortedByCreatedAt_perm txs).mem_iff).mpr ht
    have hhas : jsHas (dateBuckets txs) t.date = true := by
      rw [dateBuckets_has]
      simp only [List.any_eq_true, decide_eq_true_eq]
      exact ⟨t, htmem, rfl⟩
    rcases (List.any_eq_true).mp hhas with ⟨q, hq, hq1⟩
    have hq1' : q.1 = t.date := by simpa using hq1
    refine ⟨{ date := q.1, transactions := q.2
            , total := q.2.foldl (fun sum t => sum + t.amount) 0 },
      ?_, hq1', ?_⟩
    · unfold transactionGroups
      rw [List.mem_mergeSort]
      exact List.mem_map_of_mem _ hq
    · show t ∈ q.2
      rw [dateBuckets_snd txs q hq, List.mem_filter]
      exact ⟨htmem, by simpa using hq1'.symm⟩

/-- Instance of `transactionGroups_spec` at a one-transaction ledger. -/
theorem transactionGroups_spec_witness :
    oneGroup.transactions.Perm
        ([oneTx].filter fun u => u.date = oneGroup.date)
    ∧ oneGroup.transactions.Pairwise
        (fun a b => b.createdAt ≤ a.createdAt)
    ∧ oneGroup.total = (oneGroup.transactions.map Transaction.amount).sum
    ∧ (transactionGroups [oneTx]).Pairwise (fun a b => b.date ≤ a.date)
    ∧ (transactionGroups [oneTx]).Pairwise (fun a b => a.date ≠ b.date)
    ∧ ∃ h ∈ transactionGroups [oneTx], h.date = oneTx.date
        ∧ oneTx ∈ h.transactions :=
  transactionGroups_spec [oneTx] oneGroup oneTx
    (by simp [transactionGroups, dateBuckets, sortedByCreatedAt, jsSet,
      jsGet, jsHas, oneGroup, oneTx, mkTx])
    (by simp)
